import Mathlib

/-!
Verification development for the echoparse dashboard core: the metrics
snapshot resolver (api/metrics.ts) and the live rating fetcher
(api/live-ratings.ts), embedded shallowly and checked against the
natural-language specification.
-/

namespace Echoparse

/-! ### Data model for the snapshot resolver (api/metrics.ts)

A row of the dashboard_metrics table.  The metric_value and metric_meta
columns carry arbitrary JSON payloads that the handler copies verbatim into
the response without inspecting them, so they are modelled as opaque strings
with decidable equality.  The calculated_at column is a timestamp; the
handler only compares timestamps (via the ORDER BY clause) and copies them,
so it is modelled by a natural number whose order is chronological order.
In the JavaScript runtime a timestamp arrives as a nonempty string, hence it
is always truthy.
-/

structure MetricRow where
  metric_name : String
  metric_value : String
  metric_meta : String
  time_period : String
  calculated_at : Nat
deriving DecidableEq

/-- Entry of the response data object, as built at api/metrics.ts lines
72-77: value, meta, time_period, calculated_at copied from the winning row. -/
structure SnapshotEntry where
  value : String
  meta : String
  time_period : String
  calculated_at : Nat
deriving DecidableEq

/-- Builds the response entry from a row (api/metrics.ts lines 72-77). -/
def mkEntry (r : MetricRow) : SnapshotEntry :=
  ⟨r.metric_value, r.metric_meta, r.time_period, r.calculated_at⟩

/-- The alias table metricsMap of api/metrics.ts lines 49-57, in source
order: internal metric_name paired with the public alias. -/
def metricsMapL : List (String × String) :=
  [("one_star_percent", "oneStarPercent"),
   ("avg_sentiment", "avgSentiment"),
   ("trending_topic", "trendingTopic"),
   ("volume_delta", "volumeDelta"),
   ("platform_gap", "platformGap"),
   ("app_store_rating", "appStoreRating"),
   ("play_store_rating", "playStoreRating")]

/-- The descending-timestamp relation used by the ORDER BY clause
(.order with ascending false, api/metrics.ts line 39): a comes no later
than b in the fetched list when the timestamp of a is at least that of b. -/
def rowGE (a b : MetricRow) : Prop := b.calculated_at ≤ a.calculated_at

instance : DecidableRel rowGE := fun a b => Nat.decLe b.calculated_at a.calculated_at

instance : IsTotal MetricRow rowGE :=
  ⟨fun a b => Nat.le_total b.calculated_at a.calculated_at⟩

instance : IsTrans MetricRow rowGE :=
  ⟨fun _ _ _ h1 h2 => Nat.le_trans h2 h1⟩

/-- Models the store ordering requested at api/metrics.ts line 39: the
fetched rows arrive sorted by calculated_at descending.  Insertion sort is
stable, matching the tie-break rule of the specification (equal timestamps
keep source order). -/
def sortDesc (rows : List MetricRow) : List MetricRow :=
  List.insertionSort rowGE rows

/-- Models the first-wins loop of api/metrics.ts lines 60-65 together with
the latest[name] lookup of line 71: the first row of the fetched list whose
metric_name equals n, if any. -/
def latestF (data : List MetricRow) (n : String) : Option MetricRow :=
  data.find? (fun r => r.metric_name == n)

/-- Models the response-building loop of api/metrics.ts lines 69-79:
iterate the alias table in source order and, for each internal name with a
winning row, emit the alias paired with the entry built from that row. -/
def resolveData (data : List MetricRow) : List (String × SnapshotEntry) :=
  metricsMapL.filterMap (fun p => (latestF data p.1).map (fun r => (p.2, mkEntry r)))

/-- The snapshot produced by the resolver for store contents rows: the
handler fetches the rows ordered by calculated_at descending and then runs
the first-wins reduction and alias translation. -/
def snapshotOf (rows : List MetricRow) : List (String × SnapshotEntry) :=
  resolveData (sortDesc rows)

/-- Outcome of the supabase select at api/metrics.ts lines 36-39: either the
store reports an error with a message, or it returns the rows (already
ordered by the requested ORDER BY clause, which sortDesc models). -/
inductive StoreResult where
  | err (msg : String)
  | ok (rows : List MetricRow)
deriving DecidableEq

/-- Response envelope of the metrics endpoint.  data is none when the JSON
body has data null or no data field; error is none when there is no error
field. -/
structure MetricsResponse where
  status : Nat
  success : Bool
  data : Option (List (String × SnapshotEntry))
  error : Option String
  last_updated : Option Nat
deriving DecidableEq

/-- The metrics endpoint handler, api/metrics.ts lines 31-95: store error
gives a 500 with the message (line 42); an empty fetched list gives the
explicit no-data result (lines 44-46); otherwise the snapshot is built and
last_updated is the timestamp of the first fetched row (line 83; the
timestamp string is nonempty hence truthy, so the JavaScript fallback to
null never fires for a present row). -/
def metricsHandler : StoreResult → MetricsResponse
  | .err m => ⟨500, false, none, some m, none⟩
  | .ok rows =>
    match sortDesc rows with
    | [] => ⟨200, false, none, none, none⟩
    | r0 :: _ => ⟨200, true, some (snapshotOf rows), none, some r0.calculated_at⟩

/-! ### Characterization of the sorted first-wins reduction -/

/-- First maximum of a list of rows: the element with the largest
calculated_at, preferring the earliest such element in list order.  This is
a proof-side characterization of what the descending stable sort followed by
the first-wins loop computes; it is not itself part of the embedding. -/
def firstMax : List MetricRow → Option MetricRow
  | [] => none
  | r :: rs =>
    match firstMax rs with
    | none => some r
    | some w => if w.calculated_at ≤ r.calculated_at then some r else some w

theorem firstMax_eq_none_iff (l : List MetricRow) : firstMax l = none ↔ l = [] := by
  cases l with
  | nil => simp [firstMax]
  | cons r rs =>
    rw [firstMax]
    constructor
    · intro h
      rcases hf : firstMax rs with _ | w <;> rw [hf] at h
      · simp at h
      · by_cases hle : w.calculated_at ≤ r.calculated_at <;> simp [hle] at h
    · intro h
      simp at h

theorem firstMax_mem_max (l : List MetricRow) (w : MetricRow) (h : firstMax l = some w) :
    w ∈ l ∧ ∀ r ∈ l, r.calculated_at ≤ w.calculated_at := by
  induction l generalizing w with
  | nil => exact absurd h (by simp [firstMax])
  | cons x xs ih =>
    rw [firstMax] at h
    rcases hf : firstMax xs with _ | v <;> rw [hf] at h
    · have hnil : xs = [] := (firstMax_eq_none_iff xs).mp hf
      subst hnil
      obtain rfl : x = w := by simpa using h
      exact ⟨List.mem_cons_self _ _, by simp⟩
    · obtain ⟨hvmem, hvmax⟩ := ih v hf
      have h2 : (if v.calculated_at ≤ x.calculated_at then some x else some v) = some w := h
      by_cases hle : v.calculated_at ≤ x.calculated_at
      · rw [if_pos hle] at h2
        obtain rfl : x = w := by simpa using h2
        refine ⟨List.mem_cons_self _ _, ?_⟩
        intro r hr
        rcases List.mem_cons.mp hr with rfl | hr
        · exact Nat.le_refl _
        · exact Nat.le_trans (hvmax r hr) hle
      · rw [if_neg hle] at h2
        obtain rfl : v = w := by simpa using h2
        refine ⟨List.mem_cons_of_mem _ hvmem, ?_⟩
        intro r hr
        rcases List.mem_cons.mp hr with rfl | hr
        · exact Nat.le_of_lt (Nat.lt_of_not_le hle)
        · exact hvmax r hr

/-- Effect of inserting one row into a descending-sorted list on the first
row satisfying a predicate. -/
theorem find?_orderedInsert (q : MetricRow → Bool) (x : MetricRow) :
    ∀ s : List MetricRow, List.Sorted rowGE s →
      (List.orderedInsert rowGE x s).find? q =
        match s.find? q with
        | none => if q x then some x else none
        | some w =>
          if q x then (if w.calculated_at ≤ x.calculated_at then some x else some w)
          else some w
  | [], _ => by
    cases hqx : q x <;> simp [List.orderedInsert, List.find?, hqx]
  | b :: bs, hs => by
    rw [List.orderedInsert]
    by_cases hxb : rowGE x b
    · rw [if_pos hxb]
      have hxb2 : b.calculated_at ≤ x.calculated_at := hxb
      cases hqx : q x with
      | true =>
        rw [List.find?_cons_of_pos _ hqx]
        rcases hF : (b :: bs).find? q with _ | w
        · simp
        · have hwmem : w ∈ b :: bs := List.mem_of_find?_eq_some hF
          have hwle : w.calculated_at ≤ x.calculated_at := by
            rcases List.mem_cons.mp hwmem with rfl | hw
            · exact hxb2
            · exact Nat.le_trans (List.rel_of_sorted_cons hs w hw) hxb2
          simp [hwle]
      | false =>
        rw [List.find?_cons_of_neg _ (by simp [hqx])]
        rcases hF : (b :: bs).find? q with _ | w <;> simp
    · rw [if_neg hxb]
      have hxb2 : ¬ b.calculated_at ≤ x.calculated_at := hxb
      cases hqb : q b with
      | true =>
        rw [List.find?_cons_of_pos _ hqb, List.find?_cons_of_pos _ hqb]
        cases hqx : q x <;> simp [hxb2]
      | false =>
        rw [List.find?_cons_of_neg _ (by simp [hqb]),
          List.find?_cons_of_neg _ (by simp [hqb])]
        exact find?_orderedInsert q x bs (List.Sorted.of_cons hs)

/-- The fetched-and-sorted list reduced by the first-wins loop picks, for
each metric name, the same-name record with the largest timestamp, earliest
in store order among ties: the stable descending sort followed by taking the
first occurrence equals firstMax of the same-name sublist. -/
theorem latestF_sortDesc (rows : List MetricRow) (n : String) :
    latestF (sortDesc rows) n =
      firstMax (rows.filter (fun r => r.metric_name == n)) := by
  induction rows with
  | nil => rfl
  | cons x xs ih =>
    have hsorted : List.Sorted rowGE (sortDesc xs) :=
      List.sorted_insertionSort rowGE xs
    have hstep :
        latestF (sortDesc (x :: xs)) n =
          (List.orderedInsert rowGE x (sortDesc xs)).find?
            (fun r => r.metric_name == n) := rfl
    rw [hstep, find?_orderedInsert _ x _ hsorted]
    rw [show (sortDesc xs).find? (fun r => r.metric_name == n) = latestF (sortDesc xs) n from rfl]
    rw [ih]
    cases hx : x.metric_name == n with
    | true =>
      simp only [List.filter_cons, hx, if_true, firstMax]
    | false =>
      simp only [List.filter_cons, hx, if_false, Bool.false_eq_true]
      rcases hF : firstMax (xs.filter (fun r => r.metric_name == n)) with _ | w <;> simp

/-! ### Lookup in the built response object -/

/-- When the wanted alias does not occur among the aliases of a table, the
lookup in the data object built from that table fails. -/
theorem lookup_resolve_none (data : List MetricRow) (a : String) :
    ∀ m : List (String × String), a ∉ m.map Prod.snd →
      (m.filterMap
        (fun p => (latestF data p.1).map (fun r => (p.2, mkEntry r)))).lookup a = none
  | [], _ => rfl
  | p :: ps, ha => by
    have h1 : ¬ (a = p.2) := fun h => ha (by simp [h])
    have h2 : a ∉ ps.map Prod.snd := fun h => ha (by simp [h])
    rw [List.filterMap_cons]
    rcases hl : latestF data p.1 with _ | w
    · simpa using lookup_resolve_none data a ps h2
    · simp only [Option.map_some']
      rw [List.lookup, show (a == p.2) = false from beq_eq_false_iff_ne.mpr h1]
      exact lookup_resolve_none data a ps h2

/-- Lookup of an alias in the data object built from an alias table with
pairwise distinct aliases finds exactly the entry of its internal name. -/
theorem lookup_resolve (data : List MetricRow) :
    ∀ (m : List (String × String)) (n a : String),
      (m.map Prod.snd).Nodup → (n, a) ∈ m →
      (m.filterMap
        (fun p => (latestF data p.1).map (fun r => (p.2, mkEntry r)))).lookup a
        = (latestF data n).map mkEntry
  | [], n, a, _, hmem => absurd hmem (List.not_mem_nil _)
  | p :: ps, n, a, hnd, hmem => by
    rw [List.map_cons, List.nodup_cons] at hnd
    rw [List.filterMap_cons]
    rcases List.mem_cons.mp hmem with heq | hmem2
    · obtain rfl : p = (n, a) := heq.symm
      rcases hl : latestF data n with _ | w
      · simpa using lookup_resolve_none data a ps hnd.1
      · simp only [Option.map_some']
        rw [List.lookup, show (a == a) = true from beq_self_eq_true a]
    · have hain : a ∈ ps.map Prod.snd := List.mem_map.mpr ⟨(n, a), hmem2, rfl⟩
      have hne : ¬ (a = p.2) := fun h => hnd.1 (h ▸ hain)
      rcases hl : latestF data p.1 with _ | w
      · exact lookup_resolve data ps n a hnd.2 hmem2
      · simp only [Option.map_some']
        rw [List.lookup, show (a == p.2) = false from beq_eq_false_iff_ne.mpr hne]
        exact lookup_resolve data ps n a hnd.2 hmem2

/-- Lookup of an alias in the snapshot finds the entry of the winning row
for its internal name. -/
theorem lookup_snapshotOf (rows : List MetricRow) (n a : String)
    (hmem : (n, a) ∈ metricsMapL) :
    (snapshotOf rows).lookup a = (latestF (sortDesc rows) n).map mkEntry :=
  lookup_resolve (sortDesc rows) metricsMapL n a (by decide) hmem

/-! ### Shape of the handler output -/

/-- The sorted list is empty exactly when the store contents are. -/
theorem sortDesc_eq_nil_iff (rows : List MetricRow) : sortDesc rows = [] ↔ rows = [] := by
  constructor
  · intro h
    have hperm := List.perm_insertionSort rowGE rows
    rw [show List.insertionSort rowGE rows = sortDesc rows from rfl, h] at hperm
    exact hperm.symm.eq_nil
  · intro h
    subst h
    rfl

/-- On a nonempty store the handler answers 200 with the snapshot, and
last_updated is the timestamp of the first fetched row. -/
theorem metricsHandler_ok (rows : List MetricRow) (hne : rows ≠ []) :
    ∃ r0 t, sortDesc rows = r0 :: t ∧
      metricsHandler (.ok rows) =
        ⟨200, true, some (snapshotOf rows), none, some r0.calculated_at⟩ := by
  rcases hs : sortDesc rows with _ | ⟨r0, t⟩
  · exact absurd ((sortDesc_eq_nil_iff rows).mp hs) hne
  · exact ⟨r0, t, rfl, by rw [metricsHandler, hs]⟩

/-- The first row of the fetched (descending-ordered) list carries the
largest timestamp of the whole store. -/
theorem sortDesc_head_max (rows : List MetricRow) (r0 : MetricRow) (t : List MetricRow)
    (hs : sortDesc rows = r0 :: t) :
    r0 ∈ rows ∧ ∀ r ∈ rows, r.calculated_at ≤ r0.calculated_at := by
  have hperm := List.perm_insertionSort rowGE rows
  rw [show List.insertionSort rowGE rows = sortDesc rows from rfl, hs] at hperm
  have hsorted := List.sorted_insertionSort rowGE rows
  rw [show List.insertionSort rowGE rows = sortDesc rows from rfl, hs] at hsorted
  refine ⟨hperm.mem_iff.mp (List.mem_cons_self _ _), ?_⟩
  intro r hr
  rcases List.mem_cons.mp (hperm.mem_iff.mpr hr) with rfl | hrt
  · exact Nat.le_refl _
  · exact List.rel_of_sorted_cons hsorted r hrt

/-! ### Claim theorems for the snapshot resolver -/

/-- C1: for every store contents, in whatever order, and every metric name
occurring in it that the alias table maps, the snapshot entry for that
alias reflects a record of that name whose calculated_at is at least the
calculated_at of every other same-name record in the input.  The input
sequence here is arbitrary and unsorted: the handler requests the
descending order itself, so the property holds regardless of store
ordering. -/
theorem metrics_snapshot_latest (rows : List MetricRow) (n a : String)
    (hmap : (n, a) ∈ metricsMapL)
    (hocc : ∃ r ∈ rows, r.metric_name = n) :
    ∃ snap w,
      (metricsHandler (.ok rows)).data = some snap ∧
      snap.lookup a = some (mkEntry w) ∧
      w ∈ rows ∧ w.metric_name = n ∧
      ∀ r ∈ rows, r.metric_name = n → r.calculated_at ≤ w.calculated_at := by
  obtain ⟨r, hrmem, hrname⟩ := hocc
  have hne : rows ≠ [] := fun h => by
    subst h
    exact (List.not_mem_nil r) hrmem
  obtain ⟨r0, t, hs, hresp⟩ := metricsHandler_ok rows hne
  have hlook := lookup_snapshotOf rows n a hmap
  rw [latestF_sortDesc] at hlook
  have hfil : r ∈ rows.filter (fun x => x.metric_name == n) :=
    List.mem_filter.mpr ⟨hrmem, by simp [hrname]⟩
  rcases hF : firstMax (rows.filter (fun x => x.metric_name == n)) with _ | w
  · rw [(firstMax_eq_none_iff _).mp hF] at hfil
    exact absurd hfil (List.not_mem_nil r)
  · obtain ⟨hwmem, hwmax⟩ := firstMax_mem_max _ w hF
    have hwrows : w ∈ rows := (List.mem_filter.mp hwmem).1
    have hwname : w.metric_name = n := by
      have := (List.mem_filter.mp hwmem).2
      simpa using this
    refine ⟨snapshotOf rows, w, by rw [hresp], ?_, hwrows, hwname, ?_⟩
    · rw [hlook, hF]
      rfl
    · intro s hsmem hsname
      exact hwmax s (List.mem_filter.mpr ⟨hsmem, by simp [hsname]⟩)

/-- Witness for C1: a two-record store handed over in ascending timestamp
order still resolves to the record with the larger timestamp. -/
theorem metrics_snapshot_latest_witness :
    ∃ snap w,
      (metricsHandler (.ok [⟨"one_star_percent", "old", "m", "week", 5⟩,
        ⟨"one_star_percent", "new", "m", "week", 9⟩])).data = some snap ∧
      snap.lookup "oneStarPercent" = some (mkEntry w) ∧
      w ∈ [(⟨"one_star_percent", "old", "m", "week", 5⟩ : MetricRow),
        ⟨"one_star_percent", "new", "m", "week", 9⟩] ∧
      w.metric_name = "one_star_percent" ∧
      ∀ r ∈ [(⟨"one_star_percent", "old", "m", "week", 5⟩ : MetricRow),
        ⟨"one_star_percent", "new", "m", "week", 9⟩],
        r.metric_name = "one_star_percent" → r.calculated_at ≤ w.calculated_at :=
  metrics_snapshot_latest _ "one_star_percent" "oneStarPercent" (by decide) (by decide)

/-- C3: for every nonempty store contents, in whatever order, last_updated
is the calculated_at of the chronologically latest record across all metric
names. -/
theorem metrics_last_updated (rows : List MetricRow) (hne : rows ≠ []) :
    ∃ lu, (metricsHandler (.ok rows)).last_updated = some lu ∧
      (∃ r ∈ rows, r.calculated_at = lu) ∧
      ∀ r ∈ rows, r.calculated_at ≤ lu := by
  obtain ⟨r0, t, hs, hresp⟩ := metricsHandler_ok rows hne
  obtain ⟨hmem, hmax⟩ := sortDesc_head_max rows r0 t hs
  exact ⟨r0.calculated_at, by rw [hresp], ⟨r0, hmem, rfl⟩, hmax⟩

/-- Witness for C3 at a concrete store with two metric names given in
ascending timestamp order. -/
theorem metrics_last_updated_witness :
    ∃ lu, (metricsHandler (.ok [⟨"avg_sentiment", "x", "m", "week", 3⟩,
      ⟨"one_star_percent", "y", "m", "week", 7⟩])).last_updated = some lu ∧
      (∃ r ∈ [(⟨"avg_sentiment", "x", "m", "week", 3⟩ : MetricRow),
        ⟨"one_star_percent", "y", "m", "week", 7⟩], r.calculated_at = lu) ∧
      ∀ r ∈ [(⟨"avg_sentiment", "x", "m", "week", 3⟩ : MetricRow),
        ⟨"one_star_percent", "y", "m", "week", 7⟩], r.calculated_at ≤ lu :=
  metrics_last_updated _ (by decide)

/-- C7: an empty store yields the explicit no-data response, success false
with data null at status 200, and that response differs from every
store-fault response, which carries status 500 and the error message. -/
theorem metrics_empty_input :
    metricsHandler (.ok []) = ⟨200, false, none, none, none⟩ ∧
    ∀ msg, (metricsHandler (.err msg)).status = 500 ∧
      (metricsHandler (.err msg)).error = some msg ∧
      metricsHandler (.err msg) ≠ metricsHandler (.ok []) := by
  refine ⟨rfl, fun msg => ⟨rfl, rfl, fun h => ?_⟩⟩
  have h2 : (500 : Nat) = 200 := congrArg MetricsResponse.status h
  exact absurd h2 (by decide)

/-- First maxima of permuted lists agree when timestamps are pairwise
distinct within the list. -/
theorem firstMax_perm (l1 l2 : List MetricRow) (hperm : l1.Perm l2)
    (hdist : ∀ r ∈ l1, ∀ s ∈ l1, r.calculated_at = s.calculated_at → r = s) :
    firstMax l1 = firstMax l2 := by
  rcases h1 : firstMax l1 with _ | w1 <;> rcases h2 : firstMax l2 with _ | w2
  · rfl
  · rw [(firstMax_eq_none_iff l1).mp h1] at hperm
    rw [hperm.symm.eq_nil] at h2
    exact absurd h2 (by simp [firstMax])
  · rw [(firstMax_eq_none_iff l2).mp h2] at hperm
    rw [hperm.eq_nil] at h1
    exact absurd h1 (by simp [firstMax])
  · obtain ⟨m1, x1⟩ := firstMax_mem_max _ w1 h1
    obtain ⟨m2, x2⟩ := firstMax_mem_max _ w2 h2
    have m2' : w2 ∈ l1 := hperm.mem_iff.mpr m2
    have hle1 : w2.calculated_at ≤ w1.calculated_at := x1 w2 m2'
    have hle2 : w1.calculated_at ≤ w2.calculated_at := x2 w1 (hperm.mem_iff.mp m1)
    rw [hdist w1 m1 w2 m2' (Nat.le_antisymm hle2 hle1)]

/-- Counterexample to C2 as stated: two records of the same metric name
with equal timestamps but different values; reversing the input sequence
changes the resolved snapshot, so resolution is not invariant under
permutation of the input. -/
theorem metrics_perm_counterexample :
    List.Perm [(⟨"one_star_percent", "x", "m", "week", 5⟩ : MetricRow),
        ⟨"one_star_percent", "y", "m", "week", 5⟩]
      [⟨"one_star_percent", "y", "m", "week", 5⟩,
        ⟨"one_star_percent", "x", "m", "week", 5⟩] ∧
    snapshotOf [⟨"one_star_percent", "x", "m", "week", 5⟩,
        ⟨"one_star_percent", "y", "m", "week", 5⟩] ≠
      snapshotOf [⟨"one_star_percent", "y", "m", "week", 5⟩,
        ⟨"one_star_percent", "x", "m", "week", 5⟩] := by
  constructor
  · decide
  · decide

/-- C2 amended: resolution is a pure function of the input sequence, so
resolving the same sequence twice yields the identical response, and it is
invariant under permutation of the input provided no two records of the
same metric name carry the same timestamp; on such ties the resolver keeps
whichever record the store returned first, so tied inputs may resolve
differently under reordering. -/
theorem metrics_resolve_perm (rows1 rows2 : List MetricRow)
    (hperm : rows1.Perm rows2)
    (hdist : ∀ r ∈ rows1, ∀ s ∈ rows1,
      r.metric_name = s.metric_name → r.calculated_at = s.calculated_at → r = s) :
    metricsHandler (.ok rows1) = metricsHandler (.ok rows2) := by
  have hlat : ∀ n, latestF (sortDesc rows1) n = latestF (sortDesc rows2) n := by
    intro n
    rw [latestF_sortDesc, latestF_sortDesc]
    apply firstMax_perm _ _ (hperm.filter _)
    intro r hr s hs hcalc
    have hrn : r.metric_name = n := by
      have := (List.mem_filter.mp hr).2
      simpa using this
    have hsn : s.metric_name = n := by
      have := (List.mem_filter.mp hs).2
      simpa using this
    exact hdist r (List.mem_of_mem_filter hr) s (List.mem_of_mem_filter hs)
      (hrn.trans hsn.symm) hcalc
  have hsnap : snapshotOf rows1 = snapshotOf rows2 := by
    unfold snapshotOf resolveData
    exact List.filterMap_congr (fun p _ => by rw [hlat p.1])
  rcases hrows1 : rows1 with _ | ⟨x, xs⟩
  · rw [hrows1] at hperm
    rw [hperm.symm.eq_nil]
  · have hne1 : rows1 ≠ [] := by
      rw [hrows1]
      exact List.cons_ne_nil x xs
    have hne2 : rows2 ≠ [] := fun h => hne1 (by rw [h] at hperm; exact hperm.eq_nil)
    rw [← hrows1]
    obtain ⟨r01, t1, hs1, hresp1⟩ := metricsHandler_ok rows1 hne1
    obtain ⟨r02, t2, hs2, hresp2⟩ := metricsHandler_ok rows2 hne2
    obtain ⟨hm1, hx1⟩ := sortDesc_head_max rows1 r01 t1 hs1
    obtain ⟨hm2, hx2⟩ := sortDesc_head_max rows2 r02 t2 hs2
    have hcalc : r01.calculated_at = r02.calculated_at :=
      Nat.le_antisymm (hx2 r01 (hperm.mem_iff.mp hm1)) (hx1 r02 (hperm.mem_iff.mpr hm2))
    rw [hresp1, hresp2, hsnap, hcalc]

/-- Witness for the amended C2: a concrete reversal of a two-record store
with distinct timestamps yields the identical response. -/
theorem metrics_resolve_perm_witness :
    metricsHandler (.ok [⟨"one_star_percent", "x", "m", "week", 5⟩,
      ⟨"one_star_percent", "y", "m", "week", 9⟩]) =
    metricsHandler (.ok [⟨"one_star_percent", "y", "m", "week", 9⟩,
      ⟨"one_star_percent", "x", "m", "week", 5⟩]) :=
  metrics_resolve_perm _ _ (by decide) (by decide)

/-- Lookup of an alias found in a pair list yields a pair of that list. -/
theorem mem_of_lookup_eq_some {β : Type} (l : List (String × β)) (a : String) (e : β)
    (h : l.lookup a = some e) : (a, e) ∈ l := by
  induction l with
  | nil => cases h
  | cons p ps ih =>
    rw [List.lookup] at h
    cases hab : a == p.1 with
    | true =>
      rw [hab] at h
      obtain rfl : p.2 = e := by simpa using h
      obtain rfl : a = p.1 := by simpa using hab
      exact List.mem_cons_self _ _
    | false =>
      rw [hab] at h
      exact List.mem_cons_of_mem _ (ih h)

/-- Every key of the alias table is aliased. -/
theorem metricsMap_keys_aliased :
    ∀ p ∈ metricsMapL, (metricsMapL.lookup p.1).isSome = true := by decide

/-- Filtering a store down to its aliased records does not change the
same-name sublist of an aliased name. -/
theorem filter_name_of_aliased (l : List MetricRow) (n : String)
    (hn : (metricsMapL.lookup n).isSome = true) :
    l.filter (fun r => r.metric_name == n) =
      (l.filter (fun r => (metricsMapL.lookup r.metric_name).isSome)).filter
        (fun r => r.metric_name == n) := by
  rw [List.filter_filter]
  apply List.filter_congr
  intro r _
  cases hrn : r.metric_name == n with
  | true =>
    have heq : r.metric_name = n := by simpa using hrn
    simp [heq, hn]
  | false => simp

/-- C8: every snapshot entry stems from a record whose internal name the
alias table maps, so records with unaliased names never appear in the
snapshot; and any two stores that agree on their aliased records resolve to
the same snapshot, so adding or removing unaliased records never changes
the resolved entry of any alias. -/
theorem metrics_unaliased_invisible (rows : List MetricRow) :
    (∀ a e, (snapshotOf rows).lookup a = some e →
      ∃ n w, (n, a) ∈ metricsMapL ∧ w ∈ rows ∧ w.metric_name = n ∧ e = mkEntry w) ∧
    (∀ rows2 : List MetricRow,
      rows2.filter (fun r => (metricsMapL.lookup r.metric_name).isSome) =
        rows.filter (fun r => (metricsMapL.lookup r.metric_name).isSome) →
      snapshotOf rows2 = snapshotOf rows) := by
  constructor
  · intro a e hlook
    have hmem : (a, e) ∈ snapshotOf rows := mem_of_lookup_eq_some _ a e hlook
    obtain ⟨p, hp, hpe⟩ := List.mem_filterMap.mp hmem
    rcases hl : latestF (sortDesc rows) p.1 with _ | w
    · rw [hl] at hpe
      cases hpe
    · rw [hl] at hpe
      have hpair : (p.2, mkEntry w) = (a, e) := Option.some.inj hpe
      have h1 : p.2 = a := congrArg Prod.fst hpair
      have h2 : mkEntry w = e := congrArg Prod.snd hpair
      rw [latestF_sortDesc] at hl
      obtain ⟨hwmem, _⟩ := firstMax_mem_max _ w hl
      have hwrows : w ∈ rows := List.mem_of_mem_filter hwmem
      have hwname : w.metric_name = p.1 := by
        have := (List.mem_filter.mp hwmem).2
        simpa using this
      refine ⟨p.1, w, ?_, hwrows, hwname, h2.symm⟩
      rw [← h1, Prod.mk.eta]
      exact hp
  · intro rows2 hagree
    unfold snapshotOf resolveData
    apply List.filterMap_congr
    intro p hp
    have hn := metricsMap_keys_aliased p hp
    rw [latestF_sortDesc, latestF_sortDesc, filter_name_of_aliased rows2 p.1 hn,
      filter_name_of_aliased rows p.1 hn, hagree]

/-- Witness for C8 at a concrete store holding one record of an unaliased
internal name next to one aliased record. -/
theorem metrics_unaliased_invisible_witness :
    (∀ a e, (snapshotOf [⟨"internal_diag", "v", "m", "week", 9⟩,
        ⟨"one_star_percent", "x", "m", "week", 5⟩]).lookup a = some e →
      ∃ n w, (n, a) ∈ metricsMapL ∧
        w ∈ [(⟨"internal_diag", "v", "m", "week", 9⟩ : MetricRow),
          ⟨"one_star_percent", "x", "m", "week", 5⟩] ∧
        w.metric_name = n ∧ e = mkEntry w) ∧
    (∀ rows2 : List MetricRow,
      rows2.filter (fun r => (metricsMapL.lookup r.metric_name).isSome) =
        [(⟨"internal_diag", "v", "m", "week", 9⟩ : MetricRow),
          ⟨"one_star_percent", "x", "m", "week", 5⟩].filter
            (fun r => (metricsMapL.lookup r.metric_name).isSome) →
      snapshotOf rows2 = snapshotOf [⟨"internal_diag", "v", "m", "week", 9⟩,
        ⟨"one_star_percent", "x", "m", "week", 5⟩]) :=
  metrics_unaliased_invisible _

/-! ### Data model for the live rating fetcher (api/live-ratings.ts)

The handler manipulates JavaScript numbers, which can be nan or infinite;
finite doubles are modelled by rationals.  The floating-point rounding of
parseFloat is not modelled: the parsed decimal tokens are read exactly.
-/

/-- A JavaScript number: nan, one of the two infinities, or a finite value. -/
inductive JsNumber where
  | nan
  | posInf
  | negInf
  | finite (val : ℚ)
deriving DecidableEq

/-- Number.isFinite on a JavaScript number. -/
def JsNumber.isFiniteNum : JsNumber → Bool
  | finite _ => true
  | _ => false

/-- A JSON field value as far as the handler inspects it: a number, or
anything else (including an absent field), which the typeof guard at
api/live-ratings.ts line 19 rejects. -/
inductive JsVal where
  | num (x : JsNumber)
  | other
deriving DecidableEq

/-- The first element of the results array of the iTunes lookup payload,
as far as the handler reads it. -/
structure AppleResult where
  averageUserRating : JsVal
deriving DecidableEq

/-- Outcome of the iTunes lookup call (api/live-ratings.ts lines 16-18):
the request throws, or it yields a payload whose optional chain
data.results[0] gives at most one result object. -/
inductive AppleFetch where
  | fail
  | ok (firstResult : Option AppleResult)
deriving DecidableEq

/-- Outcome of the play-store page fetch (api/live-ratings.ts lines
30-32): the request throws, or it yields the page content. -/
inductive GoogleFetch where
  | fail
  | ok (content : String)
deriving DecidableEq

/-- Request-time environment of the live-ratings handler: the two optional
source identifiers from the environment variables, and the outcome each
outbound call would have (unused when the identifier is absent, since the
call is then never issued). -/
structure LiveEnv where
  appleAppId : Option String
  googlePackageId : Option String
  appleFetch : AppleFetch
  googleFetch : GoogleFetch

/-! ### Play-store extraction -/

/-- Whitespace class of the regex at api/live-ratings.ts line 34: the
ECMAScript character class of the backslash-s escape, which is WhiteSpace
union LineTerminator, that is tab, line feed, vertical tab, form feed,
carriage return, space, no-break space, ogham space mark, the en-quad
through hair-space range, line separator, paragraph separator, narrow
no-break space, medium mathematical space, ideographic space and the
zero-width no-break space. -/
def isSpaceC (c : Char) : Bool :=
  c == '\t' || c == '\n' || c == '\x0b' || c == '\x0c' || c == '\r' ||
  c == ' ' || c == '\u00A0' || c == '\u1680' ||
  (decide ('\u2000' ≤ c) && decide (c ≤ '\u200A')) ||
  c == '\u2028' || c == '\u2029' || c == '\u202F' || c == '\u205F' ||
  c == '\u3000' || c == '\uFEFF'

/-- Place value of a digit run. -/
def digitsVal (ds : List Char) : Nat :=
  ds.foldl (fun a c => 10 * a + (c.toNat - 48)) 0

/-- Models the JavaScript parseFloat call at api/live-ratings.ts line 36 on
the strings the regex capture can produce: one or more digits optionally
followed by a dot and more digits, read exactly as a rational.  On other
strings the model parses a leading such token and yields nan when no
leading digit exists; signs, exponents and leading whitespace never occur
at this call site. -/
def parseFloatM (s : String) : JsNumber :=
  let cs := s.data
  let d1 := cs.takeWhile Char.isDigit
  let r1 := cs.dropWhile Char.isDigit
  if d1.isEmpty then .nan
  else
    match r1 with
    | '.' :: r2 =>
      let d2 := r2.takeWhile Char.isDigit
      .finite (mkRat (Int.ofNat (digitsVal d1 * 10 ^ d2.length + digitsVal d2))
        (10 ^ d2.length))
    | _ => .finite (mkRat (Int.ofNat (digitsVal d1)) 1)

/-- Attempts the regex of api/live-ratings.ts line 34 at one start
position: one or more digits, an optional dot with one or more digits,
optional whitespace, then the literal star; returns the captured number
token.  Backtracking never helps this pattern at a fixed start position,
because shrinking any greedy run leaves a digit, a dot or a whitespace
character where the literal star would have to begin, so taking maximal
runs is exact. -/
def starMatchAt (cs : List Char) : Option (List Char) :=
  let d1 := cs.takeWhile Char.isDigit
  let r1 := cs.dropWhile Char.isDigit
  if d1.isEmpty then none
  else
    let td : List Char × List Char :=
      match r1 with
      | '.' :: r2 =>
        let d2 := r2.takeWhile Char.isDigit
        if d2.isEmpty then (d1, r1) else (d1 ++ '.' :: d2, r2.dropWhile Char.isDigit)
      | _ => (d1, r1)
    let r3 := td.2.dropWhile isSpaceC
    if ("star".data).isPrefixOf r3 then some td.1 else none

/-- Leftmost match: the JavaScript String.match scans start positions from
the left and returns the first position where the pattern matches. -/
def starSearch : List Char → Option (List Char)
  | [] => none
  | c :: cs =>
    match starMatchAt (c :: cs) with
    | some t => some t
    | none => starSearch cs

/-- The capture group of the first match of the rating pattern in the page
content, if any. -/
def findStarToken (s : String) : Option String :=
  (starSearch s.data).map (fun cs => String.mk cs)

/-! ### Formatting -/

/-- Two-digit zero padding of the fractional part. -/
def pad2 (m : Nat) : String := if m < 10 then "0" ++ toString m else toString m

/-- toFixed with two digits on a nonnegative rational: the number of
hundredths is the nearest integer to one hundred times the value, ties
upward, computed on the numerator and denominator. -/
def toFixedTwoPos (q : ℚ) : String :=
  let n := (200 * q.num.toNat + q.den) / (2 * q.den)
  toString (n / 100) ++ "." ++ pad2 (n % 100)

/-- Models the JavaScript Number.prototype.toFixed with argument 2 on a
finite value: the sign is split off first, then the magnitude is rounded
to the nearest hundredth, ties toward the larger numerator. -/
def jsToFixedTwo (q : ℚ) : String :=
  if q < 0 then "-" ++ toFixedTwoPos (-q) else toFixedTwoPos q

/-- toFixed with two digits on any JavaScript number. -/
def JsNumber.toFixed2 : JsNumber → String
  | nan => "NaN"
  | posInf => "Infinity"
  | negInf => "-Infinity"
  | finite q => jsToFixedTwo q

/-! ### The live-ratings handler -/

/-- One per-source rating object of the response body. -/
structure LiveRating where
  value : String
  raw_value : Option JsNumber
  scale : String
deriving DecidableEq

/-- The data object of the response body. -/
structure LiveRatingsData where
  app_store_live : LiveRating
  play_store_live : LiveRating
deriving DecidableEq

/-- Response envelope of the live-ratings endpoint. -/
structure LiveRatingsResponse where
  status : Nat
  success : Bool
  data : LiveRatingsData
deriving DecidableEq

/-- The appleRating variable after the first block (api/live-ratings.ts
lines 13-26): null unless the identifier is configured, the request
succeeds, a first result exists and its averageUserRating field passes the
typeof number guard, which nan and the infinities also pass. -/
def appleRatingOf (env : LiveEnv) : Option JsNumber :=
  match env.appleAppId with
  | none => none
  | some _ =>
    match env.appleFetch with
    | .fail => none
    | .ok none => none
    | .ok (some r) =>
      match r.averageUserRating with
      | .num x => some x
      | .other => none

/-- The googleRating variable after the second block (api/live-ratings.ts
lines 28-45): null unless the identifier is configured, the request
succeeds, the pattern matches and the captured token parses to a finite
number. -/
def googleRatingOf (env : LiveEnv) : Option JsNumber :=
  match env.googlePackageId with
  | none => none
  | some _ =>
    match env.googleFetch with
    | .fail => none
    | .ok content =>
      match findStarToken content with
      | none => none
      | some tok =>
        if (parseFloatM tok).isFiniteNum then some (parseFloatM tok) else none

/-- The validApple and validGoogle narrowing at api/live-ratings.ts lines
47-51: Number.isFinite keeps only finite numbers, everything else becomes
null. -/
def finiteOrNull : Option JsNumber → Option JsNumber
  | some (.finite q) => some (.finite q)
  | _ => none

/-- One rating object of the response body (api/live-ratings.ts lines
56-65): toFixed with two digits when a value is present, otherwise the
N/A display, always on the five-point scale. -/
def mkLiveRating (v : Option JsNumber) : LiveRating :=
  { value := match v with
      | some x => x.toFixed2
      | none => "N/A"
    raw_value := v
    scale := "5" }

/-- The live-ratings endpoint handler, api/live-ratings.ts lines 8-68. -/
def liveRatingsHandler (env : LiveEnv) : LiveRatingsResponse :=
  ⟨200, true,
    ⟨mkLiveRating (finiteOrNull (appleRatingOf env)),
     mkLiveRating (finiteOrNull (googleRatingOf env))⟩⟩

/-! ### Program-order network trace -/

/-- Network events of one handler invocation. -/
inductive NetEvent where
  | appleRequest
  | appleDone (r : AppleFetch)
  | googleRequest
  | googleDone (r : GoogleFetch)
deriving DecidableEq

/-- Tests for an app-store completion event. -/
def NetEvent.isAppleDone : NetEvent → Bool
  | appleDone _ => true
  | _ => false

/-- The sequence of network events of one handler invocation in program
order: the handler awaits the iTunes call to completion (api/live-ratings.ts
lines 16-18) before the play-store call is issued (lines 30-32); a missing
identifier skips the corresponding call entirely. -/
def liveRequestTrace (env : LiveEnv) : List NetEvent :=
  (match env.appleAppId with
   | none => []
   | some _ => [.appleRequest, .appleDone env.appleFetch]) ++
  (match env.googlePackageId with
   | none => []
   | some _ => [.googleRequest, .googleDone env.googleFetch])

/-- Concurrent issuance of the two lookups, as the claim states it: the
play-store request is issued before the app-store call completes. -/
def issuedConcurrently (t : List NetEvent) : Prop :=
  ∃ i : Fin t.length, ∃ j : Fin t.length,
    i.val < j.val ∧ t.get i = .googleRequest ∧ (t.get j).isAppleDone = true

instance (t : List NetEvent) : Decidable (issuedConcurrently t) := by
  unfold issuedConcurrently
  infer_instance

/-! ### Claim theorems for the live rating fetcher -/

/-- C10: on every execution path, identifier absent, fetch successful, or
fetch failed, both scales in the response equal the string five. -/
theorem live_scale_always_five (env : LiveEnv) :
    (liveRatingsHandler env).data.app_store_live.scale = "5" ∧
    (liveRatingsHandler env).data.play_store_live.scale = "5" :=
  ⟨rfl, rfl⟩

/-- C6: the endpoint always answers 200 with top-level success true once
the fetch attempts complete, and each per-source rating is unaffected by
the outcome of the other source: a failure of one source, of whatever kind,
leaves the other result unchanged, and no single-source outage can reach a
5xx response. -/
theorem live_per_source_isolation (aid gid : Option String)
    (af af2 : AppleFetch) (gf gf2 : GoogleFetch) :
    (liveRatingsHandler ⟨aid, gid, af, gf⟩).status = 200 ∧
    (liveRatingsHandler ⟨aid, gid, af, gf⟩).success = true ∧
    (liveRatingsHandler ⟨aid, gid, af, gf⟩).data.play_store_live =
      (liveRatingsHandler ⟨aid, gid, af2, gf⟩).data.play_store_live ∧
    (liveRatingsHandler ⟨aid, gid, af, gf⟩).data.app_store_live =
      (liveRatingsHandler ⟨aid, gid, af, gf2⟩).data.app_store_live :=
  ⟨rfl, rfl, rfl, rfl⟩

/-- Counterexample to C5 as stated: with both identifiers configured, the
play-store request event strictly follows the app-store completion event in
the program-order trace, so the two lookups are not issued concurrently;
the handler awaits the first call before issuing the second. -/
theorem live_not_concurrent_counterexample :
    liveRequestTrace ⟨some "1", some "p", .fail, .fail⟩ =
      [.appleRequest, .appleDone .fail, .googleRequest, .googleDone .fail] ∧
    ¬ issuedConcurrently (liveRequestTrace ⟨some "1", some "p", .fail, .fail⟩) := by
  constructor
  · rfl
  · decide

/-- C5 amended: the two lookups are issued sequentially, the play-store
request only after the app-store call completes, but they are joined
unconditionally: whatever the outcome of the app-store call, the play-store
request is still issued and the play-store rating in the response is
computed from the play-store outcome alone. -/
theorem live_sequential_join (a g : String) (af : AppleFetch) (gf : GoogleFetch) :
    liveRequestTrace ⟨some a, some g, af, gf⟩ =
      [.appleRequest, .appleDone af, .googleRequest, .googleDone gf] ∧
    ∀ af2, (liveRatingsHandler ⟨some a, some g, af2, gf⟩).data.play_store_live =
      mkLiveRating (finiteOrNull (googleRatingOf ⟨some a, some g, af, gf⟩)) :=
  ⟨rfl, fun _ => rfl⟩

/-- The finite part of an optional JavaScript number. -/
def finitePart : Option JsNumber → Option ℚ
  | some (.finite q) => some q
  | _ => none

/-- The finite rating the app-store source yields, if any: the identifier
is configured, the lookup succeeds, and the first result carries a finite
numeric averageUserRating; in every other case the source could not be
parsed into a finite number. -/
def appleFiniteRating (env : LiveEnv) : Option ℚ :=
  finitePart (appleRatingOf env)

/-- The finite rating the play-store source yields, if any: the identifier
is configured, the page fetch succeeds, the pattern matches and the
captured token is a finite number. -/
def googleFiniteRating (env : LiveEnv) : Option ℚ :=
  finitePart (googleRatingOf env)

/-- Contract of one response rating built from a source outcome. -/
theorem mkLiveRating_spec (o : Option JsNumber) :
    ((mkLiveRating (finiteOrNull o)).raw_value = none ↔ finitePart o = none) ∧
    (∀ q, finitePart o = some q →
      (mkLiveRating (finiteOrNull o)).raw_value = some (.finite q) ∧
      (mkLiveRating (finiteOrNull o)).value = jsToFixedTwo q) ∧
    ((mkLiveRating (finiteOrNull o)).raw_value = none →
      (mkLiveRating (finiteOrNull o)).value = "N/A") ∧
    (∀ x, (mkLiveRating (finiteOrNull o)).raw_value = some x → ∃ q, x = .finite q) := by
  rcases o with _ | x
  · simp [mkLiveRating, finiteOrNull, finitePart]
  · rcases x with _ | _ | _ | q <;>
      simp [mkLiveRating, finiteOrNull, finitePart, JsNumber.toFixed2]

/-- C4: in each per-source rating, raw_value is null exactly when that
source did not yield a finite parsed rating, and then value is the N/A
display; when a finite rating q was parsed, raw_value is exactly that
finite number and value is q formatted to two decimal places; raw_value is
never nan or an infinity. -/
theorem live_raw_value_contract (env : LiveEnv) :
    (((liveRatingsHandler env).data.app_store_live.raw_value = none ↔
        appleFiniteRating env = none) ∧
      (∀ q, appleFiniteRating env = some q →
        (liveRatingsHandler env).data.app_store_live.raw_value = some (.finite q) ∧
        (liveRatingsHandler env).data.app_store_live.value = jsToFixedTwo q) ∧
      ((liveRatingsHandler env).data.app_store_live.raw_value = none →
        (liveRatingsHandler env).data.app_store_live.value = "N/A") ∧
      (∀ x, (liveRatingsHandler env).data.app_store_live.raw_value = some x →
        ∃ q, x = .finite q)) ∧
    (((liveRatingsHandler env).data.play_store_live.raw_value = none ↔
        googleFiniteRating env = none) ∧
      (∀ q, googleFiniteRating env = some q →
        (liveRatingsHandler env).data.play_store_live.raw_value = some (.finite q) ∧
        (liveRatingsHandler env).data.play_store_live.value = jsToFixedTwo q) ∧
      ((liveRatingsHandler env).data.play_store_live.raw_value = none →
        (liveRatingsHandler env).data.play_store_live.value = "N/A") ∧
      (∀ x, (liveRatingsHandler env).data.play_store_live.raw_value = some x →
        ∃ q, x = .finite q)) :=
  ⟨mkLiveRating_spec (appleRatingOf env), mkLiveRating_spec (googleRatingOf env)⟩

/-- Witness for C4 at a concrete environment where the app-store source
parses and the play-store fetch fails. -/
theorem live_raw_value_contract_witness :
    (((liveRatingsHandler ⟨some "1", some "p",
          .ok (some ⟨.num (.finite (mkRat 43 10))⟩), .fail⟩).data.app_store_live.raw_value =
            none ↔
        appleFiniteRating ⟨some "1", some "p",
          .ok (some ⟨.num (.finite (mkRat 43 10))⟩), .fail⟩ = none) ∧
      (∀ q, appleFiniteRating ⟨some "1", some "p",
          .ok (some ⟨.num (.finite (mkRat 43 10))⟩), .fail⟩ = some q →
        (liveRatingsHandler ⟨some "1", some "p",
          .ok (some ⟨.num (.finite (mkRat 43 10))⟩), .fail⟩).data.app_store_live.raw_value =
            some (.finite q) ∧
        (liveRatingsHandler ⟨some "1", some "p",
          .ok (some ⟨.num (.finite (mkRat 43 10))⟩), .fail⟩).data.app_store_live.value =
            jsToFixedTwo q) ∧
      ((liveRatingsHandler ⟨some "1", some "p",
          .ok (some ⟨.num (.finite (mkRat 43 10))⟩), .fail⟩).data.app_store_live.raw_value =
            none →
        (liveRatingsHandler ⟨some "1", some "p",
          .ok (some ⟨.num (.finite (mkRat 43 10))⟩), .fail⟩).data.app_store_live.value =
            "N/A") ∧
      (∀ x, (liveRatingsHandler ⟨some "1", some "p",
          .ok (some ⟨.num (.finite (mkRat 43 10))⟩), .fail⟩).data.app_store_live.raw_value =
            some x → ∃ q, x = .finite q)) ∧
    (((liveRatingsHandler ⟨some "1", some "p",
          .ok (some ⟨.num (.finite (mkRat 43 10))⟩), .fail⟩).data.play_store_live.raw_value =
            none ↔
        googleFiniteRating ⟨some "1", some "p",
          .ok (some ⟨.num (.finite (mkRat 43 10))⟩), .fail⟩ = none) ∧
      (∀ q, googleFiniteRating ⟨some "1", some "p",
          .ok (some ⟨.num (.finite (mkRat 43 10))⟩), .fail⟩ = some q →
        (liveRatingsHandler ⟨some "1", some "p",
          .ok (some ⟨.num (.finite (mkRat 43 10))⟩), .fail⟩).data.play_store_live.raw_value =
            some (.finite q) ∧
        (liveRatingsHandler ⟨some "1", some "p",
          .ok (some ⟨.num (.finite (mkRat 43 10))⟩), .fail⟩).data.play_store_live.value =
            jsToFixedTwo q) ∧
      ((liveRatingsHandler ⟨some "1", some "p",
          .ok (some ⟨.num (.finite (mkRat 43 10))⟩), .fail⟩).data.play_store_live.raw_value =
            none →
        (liveRatingsHandler ⟨some "1", some "p",
          .ok (some ⟨.num (.finite (mkRat 43 10))⟩), .fail⟩).data.play_store_live.value =
            "N/A") ∧
      (∀ x, (liveRatingsHandler ⟨some "1", some "p",
          .ok (some ⟨.num (.finite (mkRat 43 10))⟩), .fail⟩).data.play_store_live.raw_value =
            some x → ∃ q, x = .finite q)) :=
  live_raw_value_contract ⟨some "1", some "p",
    .ok (some ⟨.num (.finite (mkRat 43 10))⟩), .fail⟩

/-- C9 amended: whenever the first match of the rating pattern in the page
content captures the token 4.70, the play-store rating has raw_value the
finite number 47/10 and displays the string 4.70; content consisting of
exactly the token and the marker is such a case.  The original reading
quantified over every content merely containing the text fails, because an
earlier or longer match wins. -/
theorem live_star_four_seven (aid : Option String) (af : AppleFetch)
    (gid : String) (content : String)
    (h : findStarToken content = some "4.70") :
    (liveRatingsHandler
        ⟨aid, some gid, af, .ok content⟩).data.play_store_live.raw_value =
      some (.finite (mkRat 47 10)) ∧
    (liveRatingsHandler
        ⟨aid, some gid, af, .ok content⟩).data.play_store_live.value = "4.70" := by
  have hg : googleRatingOf ⟨aid, some gid, af, .ok content⟩ =
      some (.finite (mkRat 47 10)) := by
    show (match findStarToken content with
      | none => none
      | some tok =>
        if (parseFloatM tok).isFiniteNum then some (parseFloatM tok) else none) =
      some (.finite (mkRat 47 10))
    rw [h]
    decide
  show (mkLiveRating (finiteOrNull (googleRatingOf
      ⟨aid, some gid, af, .ok content⟩))).raw_value = _ ∧
    (mkLiveRating (finiteOrNull (googleRatingOf
      ⟨aid, some gid, af, .ok content⟩))).value = _
  rw [hg]
  exact ⟨rfl, by decide⟩

/-- Witness for the amended C9 at the concrete content 4.70 star. -/
theorem live_star_four_seven_witness :
    (liveRatingsHandler
        ⟨none, some "pkg", .fail, .ok "4.70 star"⟩).data.play_store_live.raw_value =
      some (.finite (mkRat 47 10)) ∧
    (liveRatingsHandler
        ⟨none, some "pkg", .fail, .ok "4.70 star"⟩).data.play_store_live.value = "4.70" :=
  live_star_four_seven none .fail "pkg" "4.70 star" (by decide)

/-- Counterexample to C9 as stated: the content 14.70 star contains the
text 4.70 star as a substring, yet extraction captures the longer leading
token, yielding raw_value 147/10 displayed as 14.70, not 4.7 displayed as
4.70. -/
theorem live_star_extraction_counterexample :
    "14.70 star" = "1" ++ "4.70 star" ++ "" ∧
    (liveRatingsHandler
        ⟨none, some "pkg", .fail, .ok "14.70 star"⟩).data.play_store_live.raw_value =
      some (.finite (mkRat 147 10)) ∧
    (liveRatingsHandler
        ⟨none, some "pkg", .fail, .ok "14.70 star"⟩).data.play_store_live.value =
      "14.70" ∧
    ¬ ((liveRatingsHandler
        ⟨none, some "pkg", .fail, .ok "14.70 star"⟩).data.play_store_live.raw_value =
      some (.finite (mkRat 47 10))) := by
  refine ⟨rfl, ?_, ?_, ?_⟩ <;> decide

end Echoparse
